import Mathlib

/-!
# Verification of the colobot input manager (`src/app/input.h`)

Shallow embedding of the `CInput` input-state manager declared in
`src/app/input.h` of the colobot repository.  Only the header is present in
the excerpt; the member-function bodies live in the (absent) `input.cpp`, so
every operation body is modelled from the specification's description of the
operation, as indicated by `Modelled from the spec:` doc comments.  The data
model (`InputBinding`, `JoyAxisBinding`, `TrackedKey`, `AXIS_INVALID`, the
constructor of `InputBinding`, constness of the state queries) is translated
directly from the header.

Machine `unsigned int` key codes are modelled as `Nat` (no arithmetic is ever
performed on them, only storage, comparison and decimal (de)serialization, so
no wrap-around point exists); the C++ `int` axis index is modelled as `Int`
(it must hold the negative sentinel `AXIS_INVALID = -1`); the `float`
deadzone is modelled as `Rat` (only assignment and order comparisons occur).
-/

/-! ## Decimal numeral printing and parsing

Helper layer for the persisted key-binding string.  The spec leaves the exact
textual format open ("engine-defined format"), requiring only a compact
textual form with a graceful parse; we model it as space-separated decimal
numerals. -/

/-- The decimal digit character for `d` (`d ≥ 9` yields `'9'`). -/
def digitChar (d : Nat) : Char :=
  if d = 0 then '0' else if d = 1 then '1' else if d = 2 then '2'
  else if d = 3 then '3' else if d = 4 then '4' else if d = 5 then '5'
  else if d = 6 then '6' else if d = 7 then '7' else if d = 8 then '8'
  else '9'

/-- Inverse of `digitChar`: the value of a decimal digit character. -/
def charDigit (c : Char) : Option Nat :=
  if c = '0' then some 0 else if c = '1' then some 1 else if c = '2' then some 2
  else if c = '3' then some 3 else if c = '4' then some 4 else if c = '5' then some 5
  else if c = '6' then some 6 else if c = '7' then some 7 else if c = '8' then some 8
  else if c = '9' then some 9 else none

/-- Big-endian decimal digit list of a natural number. -/
def natDigits (n : Nat) : List Char :=
  if h : n < 10 then [digitChar n]
  else natDigits (n / 10) ++ [digitChar (n % 10)]
decreasing_by exact Nat.div_lt_self (by omega) (by omega)

/-- Accumulator-style parse of a digit list. -/
def parseDigitsAux : List Char → Nat → Option Nat
  | [], acc => some acc
  | c :: cs, acc =>
    match charDigit c with
    | some d => parseDigitsAux cs (10 * acc + d)
    | none => none

/-- Parse a nonempty all-digit character list as a natural number. -/
def parseNat : List Char → Option Nat
  | [] => none
  | c :: cs => parseDigitsAux (c :: cs) 0

/-- Decimal rendering of an integer: optional leading minus sign. -/
def intDigits (i : Int) : List Char :=
  if i < 0 then '-' :: natDigits (-i).toNat else natDigits i.toNat

/-- Parse an optionally-minus-signed decimal numeral as an integer. -/
def parseInt : List Char → Option Int
  | [] => none
  | c :: cs =>
    if c = '-' then (parseNat cs).map (fun n => -(n : Int))
    else (parseDigitsAux (c :: cs) 0).map (fun n => (n : Int))

theorem charDigit_digitChar (d : Nat) (h : d < 10) : charDigit (digitChar d) = some d := by
  interval_cases d <;> decide

theorem digitChar_ne_space (d : Nat) : digitChar d ≠ ' ' := by
  unfold digitChar
  split <;> [decide; (split <;> [decide; (split <;> [decide; (split <;> [decide;
    (split <;> [decide; (split <;> [decide; (split <;> [decide; (split <;> [decide;
    (split <;> [decide; decide])])])])])])])])]

theorem digitChar_ne_minus (d : Nat) : digitChar d ≠ '-' := by
  unfold digitChar
  split <;> [decide; (split <;> [decide; (split <;> [decide; (split <;> [decide;
    (split <;> [decide; (split <;> [decide; (split <;> [decide; (split <;> [decide;
    (split <;> [decide; decide])])])])])])])])]

theorem natDigits_ne_nil (n : Nat) : natDigits n ≠ [] := by
  unfold natDigits
  split
  · simp
  · simp

theorem mem_natDigits (n : Nat) (c : Char) (hc : c ∈ natDigits n) :
    ∃ d, c = digitChar d := by
  induction n using Nat.strong_induction_on with
  | _ n ih =>
    unfold natDigits at hc
    split at hc
    · simp at hc
      exact ⟨n, hc⟩
    · rcases List.mem_append.mp hc with h1 | h2
      · exact ih (n / 10) (Nat.div_lt_self (by omega) (by omega)) h1
      · simp at h2
        exact ⟨n % 10, h2⟩

theorem parseDigitsAux_append (xs ys : List Char) (acc : Nat) :
    parseDigitsAux (xs ++ ys) acc =
      match parseDigitsAux xs acc with
      | some a => parseDigitsAux ys a
      | none => none := by
  induction xs generalizing acc with
  | nil => rfl
  | cons c cs ih =>
    simp only [List.cons_append, parseDigitsAux]
    cases charDigit c with
    | some d => exact ih (10 * acc + d)
    | none => rfl

theorem parseDigitsAux_natDigits (n : Nat) :
    ∀ acc, parseDigitsAux (natDigits n) acc =
      some (acc * 10 ^ (natDigits n).length + n) := by
  induction n using Nat.strong_induction_on with
  | _ n ih =>
    intro acc
    unfold natDigits
    split
    · simp only [parseDigitsAux, charDigit_digitChar n (by omega)]
      simp [Nat.mul_comm]
    · rw [parseDigitsAux_append, ih (n / 10) (Nat.div_lt_self (by omega) (by omega)) acc]
      simp only [parseDigitsAux, charDigit_digitChar (n % 10) (by omega)]
      have hm := Nat.div_add_mod n 10
      simp only [List.length_append, List.length_singleton]
      have : acc * 10 ^ ((natDigits (n / 10)).length + 1) =
          (acc * 10 ^ (natDigits (n / 10)).length) * 10 := by ring
      rw [this]
      congr 1
      omega

theorem parseNat_natDigits (n : Nat) : parseNat (natDigits n) = some n := by
  rcases List.exists_cons_of_ne_nil (natDigits_ne_nil n) with ⟨c, cs, hc⟩
  rw [hc, parseNat, ← hc, parseDigitsAux_natDigits n 0]
  simp

theorem parseInt_intDigits (i : Int) : parseInt (intDigits i) = some i := by
  unfold intDigits
  split
  · rcases List.exists_cons_of_ne_nil (natDigits_ne_nil (-i).toNat) with ⟨c, cs, hc⟩
    simp only [parseInt, if_pos rfl]
    have := parseNat_natDigits (-i).toNat
    rw [this]
    simp
    omega
  · rcases List.exists_cons_of_ne_nil (natDigits_ne_nil i.toNat) with ⟨c, cs, hc⟩
    rw [hc, parseInt]
    have hcne : c ≠ '-' := by
      have : c ∈ natDigits i.toNat := by rw [hc]; exact List.mem_cons_self c cs
      rcases mem_natDigits _ _ this with ⟨d, rfl⟩
      exact digitChar_ne_minus d
    rw [if_neg hcne]
    have hp : parseNat (natDigits i.toNat) = some i.toNat := parseNat_natDigits i.toNat
    rw [hc, parseNat] at hp
    rw [hp]
    simp
    omega

/-! ## Tokenization of the persisted string

The persisted key-binding string is a sequence of numeral tokens separated by
spaces (every token is followed by one space).  `splitTokens` is total on
arbitrary character lists, as required by the graceful-parse policy. -/

/-- A well-formed token: nonempty and without spaces. -/
def wfToken (t : List Char) : Prop := t ≠ [] ∧ ∀ c ∈ t, c ≠ ' '

/-- Concatenate tokens, one trailing space after each. -/
def joinTokens : List (List Char) → List Char
  | [] => []
  | t :: ts => t ++ ' ' :: joinTokens ts

/-- Split a character list at spaces, dropping empty fields. -/
def splitTokensAux : List Char → List Char → List (List Char)
  | [], acc => if acc = [] then [] else [acc.reverse]
  | c :: cs, acc =>
    if c = ' ' then
      if acc = [] then splitTokensAux cs []
      else acc.reverse :: splitTokensAux cs []
    else splitTokensAux cs (c :: acc)

/-- Split a character list into its space-separated tokens. -/
def splitTokens (cs : List Char) : List (List Char) := splitTokensAux cs []

theorem splitTokensAux_token (t : List Char) (hs : ∀ c ∈ t, c ≠ ' ') :
    ∀ (rest acc : List Char),
      splitTokensAux (t ++ ' ' :: rest) acc =
        if acc = [] ∧ t = [] then splitTokensAux rest []
        else (acc.reverse ++ t) :: splitTokensAux rest [] := by
  induction t with
  | nil =>
    intro rest acc
    simp only [List.nil_append, splitTokensAux, if_pos rfl]
    by_cases h : acc = []
    · simp [h]
    · simp [h]
  | cons c t' ih =>
    intro rest acc
    have hc : c ≠ ' ' := hs c (List.mem_cons_self c t')
    have hs' : ∀ x ∈ t', x ≠ ' ' := fun x hx => hs x (List.mem_cons_of_mem c hx)
    simp only [List.cons_append, splitTokensAux, if_neg hc, List.append_eq]
    rw [ih hs' rest (c :: acc)]
    have : ¬(c :: acc = [] ∧ t' = []) := by simp
    rw [if_neg this]
    have h2 : ¬(acc = [] ∧ c :: t' = []) := by simp
    rw [if_neg h2]
    simp

theorem splitTokens_joinTokens (ts : List (List Char)) (h : ∀ t ∈ ts, wfToken t) :
    splitTokens (joinTokens ts) = ts := by
  induction ts with
  | nil => rfl
  | cons t ts' ih =>
    rcases h t (List.mem_cons_self t ts') with ⟨hne, hsp⟩
    have hrest : ∀ x ∈ ts', wfToken x := fun x hx => h x (List.mem_cons_of_mem t hx)
    show splitTokensAux (t ++ ' ' :: joinTokens ts') [] = t :: ts'
    rw [splitTokensAux_token t hsp (joinTokens ts') []]
    have : ¬(([] : List Char) = [] ∧ t = []) := by simp [hne]
    rw [if_neg this]
    simp only [List.reverse_nil, List.nil_append]
    exact congrArg (fun l => t :: l) (ih hrest)

/-! ## Data model (`src/app/input.h`) -/

/-- Modelled from the spec: the reserved invalid ("unbound") physical-key
sentinel `KEY_INVALID` declared in `common/key.h`, which is outside the
excerpt.  Its exact numeric value is irrelevant to every claim; it is fixed
here as an arbitrary concrete code. -/
def KEY_INVALID : Nat := 0xFFFFFFFF

/-- Invalid value for axis binding (no axis assigned); `AXIS_INVALID = -1`
in `src/app/input.h`. -/
def AXIS_INVALID : Int := -1

/-- `TrackedKey` enum of `src/app/input.h`: bitmask values of the tracked
auxiliary keys. -/
def TRKEY_NUM_UP : Nat := 1 <<< 0
def TRKEY_NUM_DOWN : Nat := 1 <<< 1
def TRKEY_NUM_LEFT : Nat := 1 <<< 2
def TRKEY_NUM_RIGHT : Nat := 1 <<< 3
def TRKEY_NUM_PLUS : Nat := 1 <<< 4
def TRKEY_NUM_MINUS : Nat := 1 <<< 5
def TRKEY_PAGE_UP : Nat := 1 <<< 6
def TRKEY_PAGE_DOWN : Nat := 1 <<< 7

/-- The known `TrackedKey` bitmask values, in declaration order. -/
def knownTrackedKeys : List Nat :=
  [TRKEY_NUM_UP, TRKEY_NUM_DOWN, TRKEY_NUM_LEFT, TRKEY_NUM_RIGHT,
   TRKEY_NUM_PLUS, TRKEY_NUM_MINUS, TRKEY_PAGE_UP, TRKEY_PAGE_DOWN]

/-- Modelled from the spec: the key-modifier bitmask values (`SDLMod`,
declared outside the excerpt): left/right shift, ctrl, alt, meta, and the
num/caps/mode lock states. -/
def knownKmods : List Nat :=
  [0x1, 0x2, 0x40, 0x80, 0x100, 0x200, 0x400, 0x800, 0x1000, 0x2000, 0x4000]

/-- Modelled from the spec: the `MouseButton` enum bitmask values (declared
in `common/event.h`, outside the excerpt): five mouse buttons. -/
def knownMouseButtons : List Nat := [1, 2, 4, 8, 16]

/-- Modelled from the spec: the number of logical input slots
(`INPUT_SLOT_MAX` of the `InputSlot` enum in `common/key.h`, outside the
excerpt).  The claims depend only on the table having this fixed size. -/
def INPUT_SLOT_MAX : Nat := 21

/-- Modelled from the spec: the number of joystick-axis slots
(`JOY_AXIS_SLOT_MAX` of the `JoyAxisSlot` enum, outside the excerpt). -/
def JOY_AXIS_SLOT_MAX : Nat := 3

/-- `struct InputBinding` of `src/app/input.h`: primary and secondary
physical-key bindings (regular key, virtual key or virtual joystick button)
for one input slot. -/
structure InputBinding where
  primary : Nat
  secondary : Nat
deriving DecidableEq, Repr

/-- The zero-argument form of the defaulted constructor
`InputBinding(unsigned int p = KEY_INVALID, unsigned int s = KEY_INVALID)`
(`src/app/input.h`, lines 60-61). -/
def InputBinding.mk0 : InputBinding := ⟨KEY_INVALID, KEY_INVALID⟩

/-- The one-argument form of the defaulted `InputBinding` constructor. -/
def InputBinding.mk1 (p : Nat) : InputBinding := ⟨p, KEY_INVALID⟩

/-- The two-argument form of the defaulted `InputBinding` constructor. -/
def InputBinding.mk2 (p s : Nat) : InputBinding := ⟨p, s⟩

/-- `struct JoyAxisBinding` of `src/app/input.h`: axis index (or
`AXIS_INVALID`) plus inversion flag. -/
structure JoyAxisBinding where
  axis : Int
  invert : Bool
deriving DecidableEq, Repr

/-- State of the `CInput` manager (private members of `class CInput`,
`src/app/input.h`, lines 154-177).  The two derived motion vectors are
omitted: no claim mentions them and no modelled operation reads them. -/
structure CInput where
  m_kmodState : Nat
  m_trackedKeys : Nat
  m_mousePos : Rat × Rat
  m_mouseButtonsState : Nat
  m_inputBindings : List InputBinding
  m_joyAxisBindings : List JoyAxisBinding
  m_joystickDeadzone : Rat
deriving DecidableEq

/-- Modelled from the spec: the engine's built-in factory key bindings
(`SetDefaultInputBindings` populates the table with them; their values live
in `input.cpp`, outside the excerpt, and no claim depends on them). -/
def defaultInputBindings : List InputBinding :=
  List.replicate INPUT_SLOT_MAX InputBinding.mk0

/-- Modelled from the spec: the engine's built-in factory joystick-axis
bindings (values outside the excerpt; no claim depends on them). -/
def defaultJoyAxisBindings : List JoyAxisBinding :=
  List.replicate JOY_AXIS_SLOT_MAX ⟨AXIS_INVALID, false⟩

/-- Modelled from the spec: the freshly constructed manager (`CInput()`):
empty modifier/tracked/button masks, centred mouse position, factory
binding tables, and the factory deadzone threshold 0.2 (the spec's example
value). -/
def initInput : CInput :=
  { m_kmodState := 0
    m_trackedKeys := 0
    m_mousePos := (0, 0)
    m_mouseButtonsState := 0
    m_inputBindings := defaultInputBindings
    m_joyAxisBindings := defaultJoyAxisBindings
    m_joystickDeadzone := 1 / 5 }

/-! ## Operations -/

/-- Modelled from the spec: the payload of one raw input event as far as
this component consumes it — the backend-computed new modifier mask,
tracked-key mask, mouse-button mask and mouse position. -/
structure Event where
  kmodState : Nat
  trackedKeys : Nat
  mouseButtonsState : Nat
  mousePos : Rat × Rat

/-- Modelled from the spec: `EventProcess` — "given one raw input event,
updates: modifier bitmask, tracked-key bitmask, mouse position,
mouse-button bitmask".  Binding tables and deadzone are untouched. -/
def EventProcess (s : CInput) (e : Event) : CInput :=
  { s with
    m_kmodState := e.kmodState
    m_trackedKeys := e.trackedKeys
    m_mouseButtonsState := e.mouseButtonsState
    m_mousePos := e.mousePos }

/-- Modelled from the spec: `MouseMove` — "explicit entry point for
pointer-motion events, updates mouse position state". -/
def MouseMove (s : CInput) (pos : Rat × Rat) : CInput :=
  { s with m_mousePos := pos }

/-- Modelled from the spec: `GetKmods` — pure read (`const` in the header)
of the current key-modifier bitmask.  The state component of the result
models the object after the call. -/
def GetKmods (s : CInput) : Nat × CInput := (s.m_kmodState, s)

/-- Modelled from the spec: `GetKmodState` — pure read (`const`): whether
the given modifier is active; false for values outside the known modifier
range. -/
def GetKmodState (s : CInput) (kmod : Nat) : Bool × CInput :=
  (knownKmods.contains kmod && (s.m_kmodState &&& kmod != 0), s)

/-- Modelled from the spec: `GetTrackedKeyState` — pure read (`const`):
whether the given tracked key is pressed; false outside the `TrackedKey`
range. -/
def GetTrackedKeyState (s : CInput) (key : Nat) : Bool × CInput :=
  (knownTrackedKeys.contains key && (s.m_trackedKeys &&& key != 0), s)

/-- Modelled from the spec: `GetMouseButtonState` — pure read (`const`):
whether the given mouse button is pressed; false outside the `MouseButton`
range. -/
def GetMouseButtonState (s : CInput) (index : Nat) : Bool × CInput :=
  (knownMouseButtons.contains index && (s.m_mouseButtonsState &&& index != 0), s)

/-- Modelled from the spec: `ResetKeyStates` — "Resets tracked key states
and modifiers" (header comment): clears both masks to empty. -/
def ResetKeyStates (s : CInput) : CInput :=
  { s with m_kmodState := 0, m_trackedKeys := 0 }

/-- Modelled from the spec: `SetDefaultInputBindings` — "populates all
tables with the engine's built-in factory bindings". -/
def SetDefaultInputBindings (s : CInput) : CInput :=
  { s with
    m_inputBindings := defaultInputBindings
    m_joyAxisBindings := defaultJoyAxisBindings }

/-- Modelled from the spec: `SetInputBinding` — "replaces ... the
(primary, secondary) physical-key pair for a logical slot". -/
def SetInputBinding (s : CInput) (slot : Nat) (b : InputBinding) : CInput :=
  { s with m_inputBindings := s.m_inputBindings.set slot b }

/-- Modelled from the spec: `GetInputBinding` — "retrieves the
(primary, secondary) physical-key pair for a logical slot" (out-of-range
slots are a contract violation; the model totalizes with the unbound
binding). -/
def GetInputBinding (s : CInput) (slot : Nat) : InputBinding :=
  (s.m_inputBindings[slot]?).getD InputBinding.mk0

/-- Modelled from the spec: `SetJoyAxisBinding` — replaces the axis+invert
pair for an axis slot. -/
def SetJoyAxisBinding (s : CInput) (slot : Nat) (x : JoyAxisBinding) : CInput :=
  { s with m_joyAxisBindings := s.m_joyAxisBindings.set slot x }

/-- Modelled from the spec: `GetJoyAxisBinding` — retrieves the axis+invert
pair for an axis slot. -/
def GetJoyAxisBinding (s : CInput) (slot : Nat) : JoyAxisBinding :=
  (s.m_joyAxisBindings[slot]?).getD ⟨AXIS_INVALID, false⟩

/-- Modelled from the spec: `SetJoystickDeadzone` — sets the single global
deadzone threshold; the spec's invariant "deadzone is a non-negative
threshold" forces negative arguments to be clamped to zero. -/
def SetJoystickDeadzone (s : CInput) (zone : Rat) : CInput :=
  { s with m_joystickDeadzone := max 0 zone }

/-- Modelled from the spec: `GetJoystickDeadzone` — reads the global
deadzone threshold. -/
def GetJoystickDeadzone (s : CInput) : Rat := s.m_joystickDeadzone

/-- Modelled from the spec: the scan of `FindBinding` — "linear-scans the
binding table and returns the first matching slot" (primary checked before
secondary inside each slot), continuing at index `i`. -/
def findBindingAux (key : Nat) : List InputBinding → Nat → Nat
  | [], _ => INPUT_SLOT_MAX
  | b :: bs, i =>
    if b.primary = key ∨ b.secondary = key then i else findBindingAux key bs (i + 1)

/-- Modelled from the spec: `FindBinding` — reverse lookup of the slot
bound to a raw key code, `INPUT_SLOT_MAX` when none matches. -/
def FindBinding (s : CInput) (key : Nat) : Nat :=
  findBindingAux key s.m_inputBindings 0

/-! ## Persisted key-binding string (Save/Load) -/

/-- Modelled from the spec: serialized tokens of the input-binding table —
per slot, the primary then the secondary key code as decimal numerals. -/
def inputTokens : List InputBinding → List (List Char)
  | [] => []
  | b :: bs => natDigits b.primary :: natDigits b.secondary :: inputTokens bs

/-- Modelled from the spec: serialized tokens of the joystick-axis table —
per axis slot, the (possibly negative) axis index then the inversion flag
(`1`/`0`). -/
def axisTokens : List JoyAxisBinding → List (List Char)
  | [] => []
  | a :: rest =>
    intDigits a.axis :: natDigits (if a.invert then 1 else 0) :: axisTokens rest

/-- Modelled from the spec: the token sequence of the whole binding
configuration — input-binding tokens followed by axis-binding tokens. -/
def saveTokens (s : CInput) : List (List Char) :=
  inputTokens s.m_inputBindings ++ axisTokens s.m_joyAxisBindings

/-- Modelled from the spec: `SaveKeyBindings` — "serializes the entire
binding table to a compact textual form suitable for storage in a settings
file". -/
def SaveKeyBindings (s : CInput) : String :=
  String.mk (joinTokens (saveTokens s))

/-- Modelled from the spec: parse the entry of input slot `i` from the token
sequence: both of its key-code tokens must be present and numeric. -/
def parseInputEntry (ts : List (List Char)) (i : Nat) : Option InputBinding :=
  (ts[2 * i]?).bind fun t1 =>
    (parseNat t1).bind fun p =>
      (ts[2 * i + 1]?).bind fun t2 =>
        (parseNat t2).map fun q => ⟨p, q⟩

/-- Modelled from the spec: parse the entry of joystick-axis slot `j` (its
tokens follow the `2 * INPUT_SLOT_MAX` input-binding tokens). -/
def parseAxisEntry (ts : List (List Char)) (j : Nat) : Option JoyAxisBinding :=
  (ts[2 * INPUT_SLOT_MAX + 2 * j]?).bind fun t1 =>
    (parseInt t1).bind fun a =>
      (ts[2 * INPUT_SLOT_MAX + 2 * j + 1]?).bind fun t2 =>
        (parseNat t2).map fun n => ⟨a, n != 0⟩

/-- Modelled from the spec: `LoadKeyBindings` — the inverse parse of
`SaveKeyBindings`; "parse failure policy must tolerate partial/corrupt
strings gracefully (fill remaining slots with defaults)": every slot whose
entry is absent or malformed receives its factory default. -/
def LoadKeyBindings (s : CInput) (keys : String) : CInput :=
  let ts := splitTokens keys.data
  { s with
    m_inputBindings :=
      (List.range INPUT_SLOT_MAX).map fun i =>
        (parseInputEntry ts i).getD (defaultInputBindings.getD i InputBinding.mk0)
    m_joyAxisBindings :=
      (List.range JOY_AXIS_SLOT_MAX).map fun j =>
        (parseAxisEntry ts j).getD (defaultJoyAxisBindings.getD j ⟨AXIS_INVALID, false⟩) }

/-! ## Reachable states -/

/-- Binding tables reachable by `SetDefaultInputBindings` followed by a
finite sequence of in-range `SetInputBinding` / `SetJoyAxisBinding` calls
(the state space of the round-trip law). -/
inductive ReachableBindings : CInput → Prop
  | defaults (s : CInput) : ReachableBindings (SetDefaultInputBindings s)
  | setInput {s : CInput} (slot : Nat) (b : InputBinding) :
      slot < INPUT_SLOT_MAX → ReachableBindings s →
      ReachableBindings (SetInputBinding s slot b)
  | setAxis {s : CInput} (slot : Nat) (x : JoyAxisBinding) :
      slot < JOY_AXIS_SLOT_MAX → ReachableBindings s →
      ReachableBindings (SetJoyAxisBinding s slot x)

/-- States reachable from the fresh manager through the public operations. -/
inductive ReachableState : CInput → Prop
  | init : ReachableState initInput
  | eventProcess {s : CInput} (e : Event) :
      ReachableState s → ReachableState (EventProcess s e)
  | mouseMove {s : CInput} (pos : Rat × Rat) :
      ReachableState s → ReachableState (MouseMove s pos)
  | resetKeyStates {s : CInput} :
      ReachableState s → ReachableState (ResetKeyStates s)
  | setDefaults {s : CInput} :
      ReachableState s → ReachableState (SetDefaultInputBindings s)
  | setInput {s : CInput} (slot : Nat) (b : InputBinding) :
      ReachableState s → ReachableState (SetInputBinding s slot b)
  | setAxis {s : CInput} (slot : Nat) (x : JoyAxisBinding) :
      ReachableState s → ReachableState (SetJoyAxisBinding s slot x)
  | setDeadzone {s : CInput} (zone : Rat) :
      ReachableState s → ReachableState (SetJoystickDeadzone s zone)
  | loadKeyBindings {s : CInput} (keys : String) :
      ReachableState s → ReachableState (LoadKeyBindings s keys)

theorem ReachableBindings.lengths {s : CInput} (h : ReachableBindings s) :
    s.m_inputBindings.length = INPUT_SLOT_MAX ∧
    s.m_joyAxisBindings.length = JOY_AXIS_SLOT_MAX := by
  induction h with
  | defaults s =>
    simp [SetDefaultInputBindings, defaultInputBindings, defaultJoyAxisBindings]
  | setInput slot b hs hr ih => simpa [SetInputBinding] using ih
  | setAxis slot x hs hr ih => simpa [SetJoyAxisBinding] using ih

/-! ## Round-trip lemmas -/

theorem wfToken_natDigits (n : Nat) : wfToken (natDigits n) :=
  ⟨natDigits_ne_nil n, fun c hc => by
    rcases mem_natDigits n c hc with ⟨d, rfl⟩
    exact digitChar_ne_space d⟩

theorem wfToken_intDigits (i : Int) : wfToken (intDigits i) := by
  unfold intDigits
  split
  · refine ⟨by simp, ?_⟩
    intro c hc
    rcases List.mem_cons.mp hc with rfl | hm
    · decide
    · rcases mem_natDigits _ c hm with ⟨d, rfl⟩
      exact digitChar_ne_space d
  · exact wfToken_natDigits _

theorem inputTokens_wf (bs : List InputBinding) :
    ∀ t ∈ inputTokens bs, wfToken t := by
  induction bs with
  | nil => intro t ht; simp [inputTokens] at ht
  | cons b bs ih =>
    intro t ht
    simp only [inputTokens, List.mem_cons] at ht
    rcases ht with rfl | rfl | hm
    · exact wfToken_natDigits _
    · exact wfToken_natDigits _
    · exact ih t hm

theorem axisTokens_wf (l : List JoyAxisBinding) :
    ∀ t ∈ axisTokens l, wfToken t := by
  induction l with
  | nil => intro t ht; simp [axisTokens] at ht
  | cons a l ih =>
    intro t ht
    simp only [axisTokens, List.mem_cons] at ht
    rcases ht with rfl | rfl | hm
    · exact wfToken_intDigits _
    · exact wfToken_natDigits _
    · exact ih t hm

theorem saveTokens_wf (s : CInput) : ∀ t ∈ saveTokens s, wfToken t := by
  intro t ht
  rcases List.mem_append.mp ht with hm | hm
  · exact inputTokens_wf _ t hm
  · exact axisTokens_wf _ t hm

theorem inputTokens_length (bs : List InputBinding) :
    (inputTokens bs).length = 2 * bs.length := by
  induction bs with
  | nil => rfl
  | cons b bs ih => simp [inputTokens, ih]; omega

theorem axisTokens_length (l : List JoyAxisBinding) :
    (axisTokens l).length = 2 * l.length := by
  induction l with
  | nil => rfl
  | cons a l ih => simp [axisTokens, ih]; omega

theorem inputTokens_getElem (bs : List InputBinding) :
    ∀ (i : Nat) (b : InputBinding), bs[i]? = some b →
      (inputTokens bs)[2 * i]? = some (natDigits b.primary) ∧
      (inputTokens bs)[2 * i + 1]? = some (natDigits b.secondary) := by
  induction bs with
  | nil => intro i b h; simp at h
  | cons hd tl ih =>
    intro i b h
    cases i with
    | zero =>
      simp only [List.getElem?_cons_zero, Option.some.injEq] at h
      subst h
      constructor <;> norm_num [inputTokens]
    | succ i' =>
      simp only [List.getElem?_cons_succ] at h
      have h2 : 2 * (i' + 1) = 2 * i' + 1 + 1 := by ring
      rw [h2]
      simp only [inputTokens, List.getElem?_cons_succ]
      exact ih i' b h

theorem axisTokens_getElem (l : List JoyAxisBinding) :
    ∀ (j : Nat) (a : JoyAxisBinding), l[j]? = some a →
      (axisTokens l)[2 * j]? = some (intDigits a.axis) ∧
      (axisTokens l)[2 * j + 1]? = some (natDigits (if a.invert then 1 else 0)) := by
  induction l with
  | nil => intro j a h; simp at h
  | cons hd tl ih =>
    intro j a h
    cases j with
    | zero =>
      simp only [List.getElem?_cons_zero, Option.some.injEq] at h
      subst h
      constructor <;> norm_num [axisTokens]
    | succ j' =>
      simp only [List.getElem?_cons_succ] at h
      have h2 : 2 * (j' + 1) = 2 * j' + 1 + 1 := by ring
      rw [h2]
      simp only [axisTokens, List.getElem?_cons_succ]
      exact ih j' a h

theorem parseInputEntry_saveTokens (s : CInput)
    (hlen : s.m_inputBindings.length = INPUT_SLOT_MAX)
    (i : Nat) (b : InputBinding) (hb : s.m_inputBindings[i]? = some b) :
    parseInputEntry (saveTokens s) i = some b := by
  have hi : i < INPUT_SLOT_MAX := by
    rcases List.getElem?_eq_some_iff.mp hb with ⟨h, _⟩
    omega
  rcases inputTokens_getElem s.m_inputBindings i b hb with ⟨h1, h2⟩
  have hl1 : 2 * i < (inputTokens s.m_inputBindings).length := by
    rw [inputTokens_length, hlen]; omega
  have hl2 : 2 * i + 1 < (inputTokens s.m_inputBindings).length := by
    rw [inputTokens_length, hlen]; omega
  simp only [parseInputEntry, saveTokens]
  rw [List.getElem?_append_left hl1, List.getElem?_append_left hl2, h1, h2]
  cases b with
  | mk p q => simp [parseNat_natDigits]

theorem parseAxisEntry_saveTokens (s : CInput)
    (hlen1 : s.m_inputBindings.length = INPUT_SLOT_MAX)
    (j : Nat) (a : JoyAxisBinding) (ha : s.m_joyAxisBindings[j]? = some a) :
    parseAxisEntry (saveTokens s) j = some a := by
  rcases axisTokens_getElem s.m_joyAxisBindings j a ha with ⟨h1, h2⟩
  have hil : (inputTokens s.m_inputBindings).length = 2 * INPUT_SLOT_MAX := by
    rw [inputTokens_length, hlen1]
  have hge1 : (inputTokens s.m_inputBindings).length ≤ 2 * INPUT_SLOT_MAX + 2 * j := by
    omega
  have hge2 : (inputTokens s.m_inputBindings).length ≤ 2 * INPUT_SLOT_MAX + 2 * j + 1 := by
    omega
  simp only [parseAxisEntry, saveTokens]
  rw [List.getElem?_append_right hge1, List.getElem?_append_right hge2, hil]
  have e1 : 2 * INPUT_SLOT_MAX + 2 * j - 2 * INPUT_SLOT_MAX = 2 * j := by omega
  have e2 : 2 * INPUT_SLOT_MAX + 2 * j + 1 - 2 * INPUT_SLOT_MAX = 2 * j + 1 := by omega
  rw [e1, e2, h1, h2]
  cases a with
  | mk ax inv => cases inv <;> simp [parseInt_intDigits, parseNat_natDigits]

theorem splitTokens_saveKeyBindings (s : CInput) :
    splitTokens (SaveKeyBindings s).data = saveTokens s :=
  splitTokens_joinTokens (saveTokens s) (saveTokens_wf s)

theorem map_range_eq_of_getElem {α : Type} (N : Nat) (f : Nat → α) (l : List α)
    (hlen : l.length = N) (h : ∀ i, i < N → some (f i) = l[i]?) :
    (List.range N).map f = l := by
  apply List.ext_getElem?
  intro n
  rw [List.getElem?_map]
  by_cases hn : n < N
  · rw [List.getElem?_range hn, Option.map_some']
    exact h n hn
  · rw [List.getElem?_eq_none (by simpa [List.length_range] using hn),
      List.getElem?_eq_none (by omega)]
    rfl

theorem load_save_inputs (s s0 : CInput)
    (hlen : s.m_inputBindings.length = INPUT_SLOT_MAX) :
    (LoadKeyBindings s0 (SaveKeyBindings s)).m_inputBindings = s.m_inputBindings := by
  have hts := splitTokens_saveKeyBindings s
  simp only [LoadKeyBindings, hts]
  apply map_range_eq_of_getElem _ _ _ hlen
  intro i hi
  obtain ⟨b, hb⟩ : ∃ b, s.m_inputBindings[i]? = some b := by
    cases hx : s.m_inputBindings[i]? with
    | none => rw [List.getElem?_eq_none_iff] at hx; omega
    | some b => exact ⟨b, rfl⟩
  rw [hb, parseInputEntry_saveTokens s hlen i _ hb]
  rfl

theorem load_save_axes (s s0 : CInput)
    (hlen1 : s.m_inputBindings.length = INPUT_SLOT_MAX)
    (hlen2 : s.m_joyAxisBindings.length = JOY_AXIS_SLOT_MAX) :
    (LoadKeyBindings s0 (SaveKeyBindings s)).m_joyAxisBindings = s.m_joyAxisBindings := by
  have hts := splitTokens_saveKeyBindings s
  simp only [LoadKeyBindings, hts]
  apply map_range_eq_of_getElem _ _ _ hlen2
  intro j hj
  obtain ⟨a, ha⟩ : ∃ a, s.m_joyAxisBindings[j]? = some a := by
    cases hx : s.m_joyAxisBindings[j]? with
    | none => rw [List.getElem?_eq_none_iff] at hx; omega
    | some a => exact ⟨a, rfl⟩
  rw [ha, parseAxisEntry_saveTokens s hlen1 j _ ha]
  rfl

/-! ## `FindBinding` characterization -/

theorem findBindingAux_spec (key : Nat) :
    ∀ (l : List InputBinding) (i : Nat),
      (findBindingAux key l i = INPUT_SLOT_MAX ∧
        ∀ b ∈ l, ¬(b.primary = key ∨ b.secondary = key)) ∨
      (∃ j b, j < l.length ∧ findBindingAux key l i = i + j ∧ l[j]? = some b ∧
        (b.primary = key ∨ b.secondary = key) ∧
        ∀ j' b', j' < j → l[j']? = some b' →
          ¬(b'.primary = key ∨ b'.secondary = key)) := by
  intro l
  induction l with
  | nil => intro i; left; exact ⟨rfl, by simp⟩
  | cons hd tl ih =>
    intro i
    by_cases hm : hd.primary = key ∨ hd.secondary = key
    · right
      refine ⟨0, hd, by simp, by simp [findBindingAux, hm], by simp, hm, ?_⟩
      intro j' b' hj' _
      omega
    · have hstep : findBindingAux key (hd :: tl) i = findBindingAux key tl (i + 1) := by
        simp [findBindingAux, hm]
      rcases ih (i + 1) with ⟨heq, hnone⟩ | ⟨j, b, hj, heq, hgb, hmb, hmin⟩
      · left
        refine ⟨by rw [hstep, heq], ?_⟩
        intro b hb
        rcases List.mem_cons.mp hb with rfl | hb'
        · exact hm
        · exact hnone b hb'
      · right
        refine ⟨j + 1, b, by simpa using hj, ?_, by simpa using hgb, hmb, ?_⟩
        · rw [hstep, heq]; omega
        · intro j' b' hj' hgb'
          cases j' with
          | zero =>
            simp only [List.getElem?_cons_zero, Option.some.injEq] at hgb'
            subst hgb'
            exact hm
          | succ k =>
            simp only [List.getElem?_cons_succ] at hgb'
            exact hmin k b' (by omega) hgb'

/-! ## Claims -/

/-- C1: for every binding table reachable by `SetDefaultInputBindings`
followed by any finite sequence of `SetInputBinding` / `SetJoyAxisBinding`
calls, `SaveKeyBindings()` followed by `LoadKeyBindings` on a fresh manager
reproduces the original binding table (serialize/parse round trip). -/
theorem claim_C1_save_load_roundTrip (s : CInput) (h : ReachableBindings s) :
    (LoadKeyBindings initInput (SaveKeyBindings s)).m_inputBindings =
      s.m_inputBindings ∧
    (LoadKeyBindings initInput (SaveKeyBindings s)).m_joyAxisBindings =
      s.m_joyAxisBindings := by
  rcases h.lengths with ⟨h1, h2⟩
  exact ⟨load_save_inputs s initInput h1, load_save_axes s initInput h1 h2⟩

/-- Witness for C1 at a concrete reachable binding table. -/
theorem claim_C1_witness :
    ReachableBindings
      (SetJoyAxisBinding
        (SetInputBinding (SetDefaultInputBindings initInput) 2 (InputBinding.mk2 119 273))
        1 ⟨2, true⟩) ∧
    (LoadKeyBindings initInput (SaveKeyBindings
      (SetJoyAxisBinding
        (SetInputBinding (SetDefaultInputBindings initInput) 2 (InputBinding.mk2 119 273))
        1 ⟨2, true⟩))).m_inputBindings =
      (SetJoyAxisBinding
        (SetInputBinding (SetDefaultInputBindings initInput) 2 (InputBinding.mk2 119 273))
        1 ⟨2, true⟩).m_inputBindings ∧
    (LoadKeyBindings initInput (SaveKeyBindings
      (SetJoyAxisBinding
        (SetInputBinding (SetDefaultInputBindings initInput) 2 (InputBinding.mk2 119 273))
        1 ⟨2, true⟩))).m_joyAxisBindings =
      (SetJoyAxisBinding
        (SetInputBinding (SetDefaultInputBindings initInput) 2 (InputBinding.mk2 119 273))
        1 ⟨2, true⟩).m_joyAxisBindings := by
  have hr : ReachableBindings
      (SetJoyAxisBinding
        (SetInputBinding (SetDefaultInputBindings initInput) 2 (InputBinding.mk2 119 273))
        1 ⟨2, true⟩) :=
    ReachableBindings.setAxis 1 ⟨2, true⟩ (by decide)
      (ReachableBindings.setInput 2 (InputBinding.mk2 119 273) (by decide)
        (ReachableBindings.defaults initInput))
  exact ⟨hr, (claim_C1_save_load_roundTrip _ hr).1, (claim_C1_save_load_roundTrip _ hr).2⟩

/-- C2: for every valid slot `S < INPUT_SLOT_MAX` and every binding `B`,
`GetInputBinding(S)` after `SetInputBinding(S, B)` returns exactly `B`
(primary and secondary fields included). -/
theorem claim_C2_set_get_inputBinding (s : CInput) (slot : Nat) (b : InputBinding)
    (h1 : slot < INPUT_SLOT_MAX) (h2 : s.m_inputBindings.length = INPUT_SLOT_MAX) :
    GetInputBinding (SetInputBinding s slot b) slot = b ∧
    (GetInputBinding (SetInputBinding s slot b) slot).primary = b.primary ∧
    (GetInputBinding (SetInputBinding s slot b) slot).secondary = b.secondary := by
  have hlt : slot < s.m_inputBindings.length := by omega
  have hmain : GetInputBinding (SetInputBinding s slot b) slot = b := by
    simp [GetInputBinding, SetInputBinding, List.getElem?_set_self hlt]
  exact ⟨hmain, by rw [hmain], by rw [hmain]⟩

/-- Witness for C2 at slot 3 on the fresh manager. -/
theorem claim_C2_witness :
    GetInputBinding (SetInputBinding initInput 3 (InputBinding.mk2 10 20)) 3 =
      InputBinding.mk2 10 20 :=
  (claim_C2_set_get_inputBinding initInput 3 (InputBinding.mk2 10 20)
    (by decide) (by decide)).1

/-- C3: for every valid axis slot `A < JOY_AXIS_SLOT_MAX` and every axis
binding `X`, `GetJoyAxisBinding(A)` after `SetJoyAxisBinding(A, X)` returns
exactly `X` (axis index and invert flag included). -/
theorem claim_C3_set_get_joyAxisBinding (s : CInput) (slot : Nat) (x : JoyAxisBinding)
    (h1 : slot < JOY_AXIS_SLOT_MAX) (h2 : s.m_joyAxisBindings.length = JOY_AXIS_SLOT_MAX) :
    GetJoyAxisBinding (SetJoyAxisBinding s slot x) slot = x ∧
    (GetJoyAxisBinding (SetJoyAxisBinding s slot x) slot).axis = x.axis ∧
    (GetJoyAxisBinding (SetJoyAxisBinding s slot x) slot).invert = x.invert := by
  have hlt : slot < s.m_joyAxisBindings.length := by omega
  have hmain : GetJoyAxisBinding (SetJoyAxisBinding s slot x) slot = x := by
    simp [GetJoyAxisBinding, SetJoyAxisBinding, List.getElem?_set_self hlt]
  exact ⟨hmain, by rw [hmain], by rw [hmain]⟩

/-- Witness for C3 at axis slot 1 on the fresh manager. -/
theorem claim_C3_witness :
    GetJoyAxisBinding (SetJoyAxisBinding initInput 1 ⟨2, true⟩) 1 = ⟨2, true⟩ :=
  (claim_C3_set_get_joyAxisBinding initInput 1 ⟨2, true⟩ (by decide) (by decide)).1

/-- C4: `FindBinding(k)` returns a slot `S` only if `k` equals `S`'s primary
or secondary binding, and returns the sentinel `INPUT_SLOT_MAX` when `k`
matches neither binding of any slot. -/
theorem claim_C4_findBinding_sound (s : CInput) (key : Nat)
    (h : s.m_inputBindings.length = INPUT_SLOT_MAX) :
    FindBinding s key ≤ INPUT_SLOT_MAX ∧
    (FindBinding s key < INPUT_SLOT_MAX →
      (GetInputBinding s (FindBinding s key)).primary = key ∨
      (GetInputBinding s (FindBinding s key)).secondary = key) ∧
    ((∀ i, i < INPUT_SLOT_MAX →
        (GetInputBinding s i).primary ≠ key ∧ (GetInputBinding s i).secondary ≠ key) →
      FindBinding s key = INPUT_SLOT_MAX) := by
  rcases findBindingAux_spec key s.m_inputBindings 0 with
    ⟨heq, hnone⟩ | ⟨j, b, hj, heq, hgb, hmb, _⟩
  · have hf : FindBinding s key = INPUT_SLOT_MAX := heq
    refine ⟨by omega, by omega, fun _ => hf⟩
  · have hf : FindBinding s key = j := by
      show findBindingAux key s.m_inputBindings 0 = j
      omega
    have hget : GetInputBinding s j = b := by
      simp [GetInputBinding, hgb]
    refine ⟨by omega, ?_, ?_⟩
    · intro _
      rw [hf, hget]
      exact hmb
    · intro hall
      exfalso
      have := hall j (by omega)
      rw [hget] at this
      tauto

/-- Witness for C4 on the fresh manager with key code 5. -/
theorem claim_C4_witness :
    FindBinding initInput 5 ≤ INPUT_SLOT_MAX ∧
    ((∀ i, i < INPUT_SLOT_MAX →
        (GetInputBinding initInput i).primary ≠ 5 ∧
        (GetInputBinding initInput i).secondary ≠ 5) →
      FindBinding initInput 5 = INPUT_SLOT_MAX) :=
  ⟨(claim_C4_findBinding_sound initInput 5 (by decide)).1,
   (claim_C4_findBinding_sound initInput 5 (by decide)).2.2⟩

/-- C5: when `FindBinding(k)` returns a slot `S` (not the sentinel), `S` is
the first slot in declaration order whose primary or secondary binding
equals `k`: every earlier slot matches neither. -/
theorem claim_C5_findBinding_first (s : CInput) (key S : Nat)
    (h : s.m_inputBindings.length = INPUT_SLOT_MAX)
    (hfind : FindBinding s key = S) (hS : S < INPUT_SLOT_MAX) :
    ((GetInputBinding s S).primary = key ∨ (GetInputBinding s S).secondary = key) ∧
    ∀ j, j < S →
      (GetInputBinding s j).primary ≠ key ∧ (GetInputBinding s j).secondary ≠ key := by
  rcases findBindingAux_spec key s.m_inputBindings 0 with
    ⟨heq, _⟩ | ⟨j, b, hj, heq, hgb, hmb, hmin⟩
  · exfalso
    have hf : FindBinding s key = INPUT_SLOT_MAX := heq
    omega
  · have hf : FindBinding s key = j := by
      show findBindingAux key s.m_inputBindings 0 = j
      omega
    have hSj : S = j := by omega
    subst hSj
    have hget : GetInputBinding s S = b := by
      simp [GetInputBinding, hgb]
    refine ⟨by rw [hget]; exact hmb, ?_⟩
    intro j' hj'
    obtain ⟨b', hgb'⟩ : ∃ x, s.m_inputBindings[j']? = some x := by
      cases hx : s.m_inputBindings[j']? with
      | none => rw [List.getElem?_eq_none_iff] at hx; omega
      | some x => exact ⟨x, rfl⟩
    have hnm := hmin j' b' hj' hgb'
    have hget' : GetInputBinding s j' = b' := by
      simp [GetInputBinding, hgb']
    rw [hget']
    tauto

/-- Witness for C5: key 42 bound at slot 1 is found at slot 1, and slot 0
does not match. -/
theorem claim_C5_witness :
    ((GetInputBinding (SetInputBinding initInput 1 (InputBinding.mk2 42 43)) 1).primary = 42 ∨
     (GetInputBinding (SetInputBinding initInput 1 (InputBinding.mk2 42 43)) 1).secondary = 42) ∧
    ∀ j, j < 1 →
      (GetInputBinding (SetInputBinding initInput 1 (InputBinding.mk2 42 43)) j).primary ≠ 42 ∧
      (GetInputBinding (SetInputBinding initInput 1 (InputBinding.mk2 42 43)) j).secondary ≠ 42 :=
  claim_C5_findBinding_first (SetInputBinding initInput 1 (InputBinding.mk2 42 43)) 42 1
    (by decide) (by decide) (by decide)

/-- C6: after `ResetKeyStates()`, every tracked-key query and every modifier
query returns false/empty, for every prior state of the manager. -/
theorem claim_C6_resetKeyStates_clears (s : CInput) :
    (GetKmods (ResetKeyStates s)).1 = 0 ∧
    (∀ kmod, (GetKmodState (ResetKeyStates s) kmod).1 = false) ∧
    (∀ key, (GetTrackedKeyState (ResetKeyStates s) key).1 = false) := by
  refine ⟨rfl, ?_, ?_⟩
  · intro kmod
    simp [GetKmodState, ResetKeyStates, Nat.zero_and]
  · intro key
    simp [GetTrackedKeyState, ResetKeyStates, Nat.zero_and]

/-- C7: `LoadKeyBindings` is total on arbitrary (also partial or corrupt)
strings — modelled by a total Lean function — it always yields full-size
binding tables, and every slot whose entry cannot be parsed from the string
holds its default binding. -/
theorem claim_C7_load_graceful (keys : String) :
    (LoadKeyBindings initInput keys).m_inputBindings.length = INPUT_SLOT_MAX ∧
    (LoadKeyBindings initInput keys).m_joyAxisBindings.length = JOY_AXIS_SLOT_MAX ∧
    (∀ i, i < INPUT_SLOT_MAX →
      parseInputEntry (splitTokens keys.data) i = none →
      (LoadKeyBindings initInput keys).m_inputBindings[i]? = defaultInputBindings[i]?) ∧
    (∀ j, j < JOY_AXIS_SLOT_MAX →
      parseAxisEntry (splitTokens keys.data) j = none →
      (LoadKeyBindings initInput keys).m_joyAxisBindings[j]? = defaultJoyAxisBindings[j]?) := by
  refine ⟨by simp [LoadKeyBindings], by simp [LoadKeyBindings], ?_, ?_⟩
  · intro i hi hnone
    simp only [LoadKeyBindings, List.getElem?_map, List.getElem?_range hi,
      Option.map_some', hnone, Option.getD_none]
    simp [defaultInputBindings, List.getD, List.getElem?_replicate_of_lt hi]
  · intro j hj hnone
    simp only [LoadKeyBindings, List.getElem?_map, List.getElem?_range hj,
      Option.map_some', hnone, Option.getD_none]
    simp [defaultJoyAxisBindings, List.getD, List.getElem?_replicate_of_lt hj]

/-- Witness for C7 on the unparseable string `"z"`: slot 0 falls back to its
default binding. -/
theorem claim_C7_witness :
    (LoadKeyBindings initInput (String.mk ['z'])).m_inputBindings[0]? =
      defaultInputBindings[0]? :=
  (claim_C7_load_graceful (String.mk ['z'])).2.2.1 0 (by decide) (by decide)

/-- C8: in every state reachable through the public operations, including
`SetJoystickDeadzone` with any argument, the joystick deadzone is
non-negative. -/
theorem claim_C8_deadzone_nonneg (s : CInput) (h : ReachableState s) :
    0 ≤ GetJoystickDeadzone s := by
  induction h with
  | init => norm_num [GetJoystickDeadzone, initInput]
  | eventProcess e hr ih => simpa [GetJoystickDeadzone, EventProcess] using ih
  | mouseMove pos hr ih => simpa [GetJoystickDeadzone, MouseMove] using ih
  | resetKeyStates hr ih => simpa [GetJoystickDeadzone, ResetKeyStates] using ih
  | setDefaults hr ih => simpa [GetJoystickDeadzone, SetDefaultInputBindings] using ih
  | setInput slot b hr ih => simpa [GetJoystickDeadzone, SetInputBinding] using ih
  | setAxis slot x hr ih => simpa [GetJoystickDeadzone, SetJoyAxisBinding] using ih
  | setDeadzone zone hr ih => simp [GetJoystickDeadzone, SetJoystickDeadzone, le_max_left]
  | loadKeyBindings keys hr ih => simpa [GetJoystickDeadzone, LoadKeyBindings] using ih

/-- Witness for C8 after setting a negative deadzone. -/
theorem claim_C8_witness :
    0 ≤ GetJoystickDeadzone (SetJoystickDeadzone initInput (-1)) :=
  claim_C8_deadzone_nonneg (SetJoystickDeadzone initInput (-1))
    (ReachableState.setDeadzone (-1) ReachableState.init)

/-- C9: the state queries `GetKmods`, `GetKmodState`, `GetTrackedKeyState`
and `GetMouseButtonState` leave the manager's state identical (`const`
reads), and return false for an index outside the known range. -/
theorem claim_C9_queries_pure (s : CInput) :
    (GetKmods s).2 = s ∧
    (∀ kmod, (GetKmodState s kmod).2 = s) ∧
    (∀ key, (GetTrackedKeyState s key).2 = s) ∧
    (∀ index, (GetMouseButtonState s index).2 = s) ∧
    (∀ kmod, kmod ∉ knownKmods → (GetKmodState s kmod).1 = false) ∧
    (∀ key, key ∉ knownTrackedKeys → (GetTrackedKeyState s key).1 = false) ∧
    (∀ index, index ∉ knownMouseButtons → (GetMouseButtonState s index).1 = false) := by
  refine ⟨rfl, fun _ => rfl, fun _ => rfl, fun _ => rfl, ?_, ?_, ?_⟩
  · intro kmod hk
    simp [GetKmodState, hk]
  · intro key hk
    simp [GetTrackedKeyState, hk]
  · intro index hk
    simp [GetMouseButtonState, hk]

/-- Witness for C9 on the fresh manager at out-of-range indices. -/
theorem claim_C9_witness :
    (GetKmods initInput).2 = initInput ∧
    (GetKmodState initInput 3).1 = false ∧
    (GetTrackedKeyState initInput 3).1 = false ∧
    (GetMouseButtonState initInput 3).1 = false :=
  ⟨(claim_C9_queries_pure initInput).1,
   (claim_C9_queries_pure initInput).2.2.2.2.1 3 (by decide),
   (claim_C9_queries_pure initInput).2.2.2.2.2.1 3 (by decide),
   (claim_C9_queries_pure initInput).2.2.2.2.2.2 3 (by decide)⟩

/-- C10: the defaulted `InputBinding` constructor fills unspecified fields
with the invalid sentinel: `InputBinding()` is the fully unbound binding and
`InputBinding(p)` has `secondary = KEY_INVALID`. -/
theorem claim_C10_default_ctor :
    InputBinding.mk0 = ⟨KEY_INVALID, KEY_INVALID⟩ ∧
    InputBinding.mk0.primary = KEY_INVALID ∧
    InputBinding.mk0.secondary = KEY_INVALID ∧
    (∀ p, InputBinding.mk1 p = ⟨p, KEY_INVALID⟩) :=
  ⟨rfl, rfl, rfl, fun _ => rfl⟩
